import Mathlib

/-!
# status-console-client: the data-sync adapter

A shallow embedding of `protocol/v1/protocol.go` (option validation) and
`protocol/adapters/datasync_client.go` (the MVDS adapter over Whisper), and
theorems about them.

Conventions of the embedding.

* A Go `[]byte` is a `List Byte`; a fixed array `[n]byte` is a list together
  with a proof that its length is `n`.
* A Go pointer that may be `nil` is an `Option`.
* A Go `error` is an `Option String`: `none` is `nil`.
* `uint64` is a `Nat` below `2^64`, `int64` an `Int` in `[-2^63, 2^63)`;
  every arithmetic step is reduced explicitly.
* Code from outside the repository (the MVDS node, Whisper, protobuf,
  SHA-256) enters as a function argument.
* `sort.Slice` is not stable: the order it gives to equal elements enters as
  the argument `tie`, and theorems about sorted output hold for every `tie`.
-/

namespace StatusConsole

/-! ## Bytes, arrays and the built-in `copy` -/

/-- One octet. -/
abbrev Byte := Fin 256

/-- Width in bytes of `whisper.TopicType`, declared as a 4-byte array. -/
def TopicLength : Nat := 4

/-- Width in bytes of `mvds.GroupID`, declared as a 32-byte array. -/
def GroupIDLength : Nat := 32

/-- The Whisper topic, `whisper.TopicType`. -/
abbrev TopicType := { l : List Byte // l.length = TopicLength }

/-- The MVDS group identifier, `mvds.GroupID`. -/
abbrev GroupID := { l : List Byte // l.length = GroupIDLength }

/-- The built-in `copy(dst, src)` of Go: the first `min (len dst) (len src)`
elements of `dst` are overwritten with those of `src`, the rest of `dst` is
kept.  The value returned is the content of `dst` afterwards. -/
def goCopy {α : Type} (dst src : List α) : List α :=
  src.take (min dst.length src.length) ++ dst.drop (min dst.length src.length)

/-- The zero value of an `[n]byte` array. -/
def zeroBytes (n : Nat) : List Byte := List.replicate n 0

/-! ## `protocol/v1/protocol.go`: options and their validation -/

/-- The part of `ecdsa.PublicKey` the adapter can observe: the curve point. -/
structure PublicKey where
  X : Nat
  Y : Nat
deriving DecidableEq, Repr

/-- A Go `error`; `none` is `nil`. -/
abbrev GoError := Option String

/-- The struct `ChatOptions`. -/
structure ChatOptions where
  ChatName : String
  Recipient : Option PublicKey
deriving DecidableEq, Repr

/-- The struct `RequestOptions`: `ChatOptions` embedded, then the window. -/
structure RequestOptions where
  toChatOptions : ChatOptions
  Limit : Int
  From : Int
  To : Int
deriving DecidableEq, Repr

/-- The struct `SubscribeOptions`: `ChatOptions` embedded. -/
structure SubscribeOptions where
  toChatOptions : ChatOptions
deriving DecidableEq, Repr

/-- The struct `SendOptions`: `ChatOptions` embedded. -/
structure SendOptions where
  toChatOptions : ChatOptions
deriving DecidableEq, Repr

/-- The zero value `ChatOptions{}`. -/
def ChatOptions.zero : ChatOptions := { ChatName := "", Recipient := none }

/-- The zero value `RequestOptions{}`. -/
def RequestOptions.zero : RequestOptions :=
  { toChatOptions := ChatOptions.zero, Limit := 0, From := 0, To := 0 }

/-- The zero value `SubscribeOptions{}`. -/
def SubscribeOptions.zero : SubscribeOptions := { toChatOptions := ChatOptions.zero }

/-- The field `o.ChatName`, promoted from the embedded struct. -/
def RequestOptions.ChatName (o : RequestOptions) : String := o.toChatOptions.ChatName

/-- The field `o.Recipient`, promoted from the embedded struct. -/
def RequestOptions.Recipient (o : RequestOptions) : Option PublicKey := o.toChatOptions.Recipient

/-- The field `o.ChatName`, promoted from the embedded struct. -/
def SubscribeOptions.ChatName (o : SubscribeOptions) : String := o.toChatOptions.ChatName

/-- The field `o.Recipient`, promoted from the embedded struct. -/
def SubscribeOptions.Recipient (o : SubscribeOptions) : Option PublicKey :=
  o.toChatOptions.Recipient

/-- The field `o.ChatName`, promoted from the embedded struct. -/
def SendOptions.ChatName (o : SendOptions) : String := o.toChatOptions.ChatName

/-- The field `o.Recipient`, promoted from the embedded struct. -/
def SendOptions.Recipient (o : SendOptions) : Option PublicKey := o.toChatOptions.Recipient

/-- The method `RequestOptions.Validate`. -/
def RequestOptions.Validate (o : RequestOptions) : GoError :=
  if o = RequestOptions.zero then
    some "empty options"
  else if o.ChatName = "" ∧ o.Recipient = none then
    some "field ChatName or Recipient is required"
  else if o.ChatName ≠ "" ∧ o.Recipient ≠ none then
    some "field ChatName and Recipient both set"
  else
    none

/-- The method `SubscribeOptions.Validate`. -/
def SubscribeOptions.Validate (o : SubscribeOptions) : GoError :=
  if o = SubscribeOptions.zero then
    some "empty options"
  else if o.Recipient ≠ none ∧ o.ChatName ≠ "" then
    some "fields Identity and ChatName both set"
  else
    none

/-- The method `SendOptions.Validate`. -/
def SendOptions.Validate (o : SendOptions) : GoError :=
  if o.ChatName = "" ∧ o.Recipient = none then
    some "field ChatName or Recipient is required"
  else if o.ChatName ≠ "" ∧ o.Recipient ≠ none then
    some "fields ChatName and Recipient both set"
  else
    none

/-- The predicate of the specification: exactly one destination form is set. -/
def exactlyOneDestination (chatName : String) (recipient : Option PublicKey) : Prop :=
  (chatName ≠ "" ∧ recipient = none) ∨ (chatName = "" ∧ recipient ≠ none)

instance (chatName : String) (recipient : Option PublicKey) :
    Decidable (exactlyOneDestination chatName recipient) := by
  unfold exactlyOneDestination; infer_instance

/-! ## The topic and group codec -/

/-- The function `toGroupId`: a zero group with the topic copied over its
leading bytes. -/
def toGroupId (topicType : TopicType) : GroupID :=
  ⟨goCopy (zeroBytes GroupIDLength) topicType.val, by
    simp only [goCopy, zeroBytes, List.length_append, List.length_take, List.length_drop,
      List.length_replicate]
    omega⟩

/-- The function `toTopicType`: a zero topic with `g[:4]` copied over it. -/
def toTopicType (g : GroupID) : TopicType :=
  ⟨goCopy (zeroBytes TopicLength) (g.val.take 4), by
    simp only [goCopy, zeroBytes, List.length_append, List.length_take, List.length_drop,
      List.length_replicate]
    omega⟩

/-! ## The send-time scheduler -/

/-- The conversion `int64(x)` of a `uint64` value: the same 64 bits read as
two's complement. -/
def uint64ToInt64 (x : Nat) : Int :=
  if x % 2 ^ 64 < 2 ^ 63 then ((x % 2 ^ 64 : Nat) : Int) else ((x % 2 ^ 64 : Nat) : Int) - 2 ^ 64

/-- Reduction of an integer into the `int64` range, as Go's wrapping `+`. -/
def wrapInt64 (z : Int) : Int :=
  (z + 2 ^ 63) % 2 ^ 64 - 2 ^ 63

/-- The function `CalculateSendTime`: `time + int64(count*2)`, the product in
`uint64` and the sum in `int64`. -/
def CalculateSendTime (count : Nat) (time : Int) : Int :=
  wrapInt64 (time + uint64ToInt64 (count * 2 % 2 ^ 64))

/-! ## Message identity -/

/-- The conversion `byte(v)`: the low eight bits. -/
def toByte (v : Nat) : Byte := ⟨v % 256, Nat.mod_lt v (by decide)⟩

/-- The conversion `uint64(z)` of an `int64` value: the same 64 bits read as
an unsigned number. -/
def int64ToUint64 (z : Int) : Nat := (z % 2 ^ 64).toNat

/-- The call `binary.LittleEndian.PutUint64(b, v)` on an 8-byte buffer:
`b[k] = byte(v >> (8*k))` for `k = 0 .. 7`.  The value is the buffer
afterwards. -/
def PutUint64 (v : Nat) : List Byte :=
  [toByte v, toByte (v >>> 8), toByte (v >>> 16), toByte (v >>> 24),
   toByte (v >>> 32), toByte (v >>> 40), toByte (v >>> 48), toByte (v >>> 56)]

/-- The conversion `[]byte(s)` for a string of ASCII characters. -/
def stringBytes (s : String) : List Byte := s.toList.map (fun c => toByte c.toNat)

/-- The struct `mvds.Message` generated from the protobuf schema: the three
wire fields and the bookkeeping fields of the generated code. -/
structure MvdsMessage where
  GroupId : List Byte
  Timestamp : Int
  Body : List Byte
  XXX_unrecognized : List Byte
  XXX_sizecache : Int
deriving DecidableEq, Repr

/-- Result type of `sha256.Sum256`, a 32-byte array. -/
abbrev Digest := { l : List Byte // l.length = 32 }

/-- The function `messageID`.  `Sum256` stands for `sha256.Sum256` of the Go
standard library. -/
def messageID (Sum256 : List Byte → Digest) (m : MvdsMessage) : List Byte :=
  let t := PutUint64 (int64ToUint64 m.Timestamp)
  let b := stringBytes "MESSAGE_ID" ++ m.GroupId
  let b := b ++ t
  let b := b ++ m.Body
  let r := Sum256 b
  let hash := zeroBytes r.val.length
  goCopy hash r.val

/-- The ASCII codes of the tag `MESSAGE_ID`, written out. -/
def messageIDTag : List Byte := [77, 69, 83, 83, 65, 71, 69, 95, 73, 68]

/-- The `n`-byte little-endian encoding of `v`: byte `k` is digit `k` of `v`
in base 256. -/
def littleEndian (n v : Nat) : List Byte :=
  (List.range n).map (fun k => toByte (v / 256 ^ k))

/-- The number a little-endian byte string denotes. -/
def littleEndianValue : List Byte → Nat
  | [] => 0
  | b :: bs => b.val + 256 * littleEndianValue bs

/-- The message identity as the specification words it: the digest of tag,
group, little-endian timestamp and body, concatenated in this order. -/
def messageIDSpec (Sum256 : List Byte → Digest) (groupId : List Byte) (timestamp : Int)
    (body : List Byte) : List Byte :=
  (Sum256 (messageIDTag ++ groupId ++ littleEndian 8 (timestamp % 2 ^ 64).toNat ++ body)).val

/-! ## Decoding and ordering the messages of one payload -/

/-- The struct `protocol.Message` as `datasync_client.go` uses it: the
identity it assigns (`ID`), the logical clock it sorts by (`Clock`), the
sender key the polling loop attaches (`SigPubKey`), and the decoded content
(`Text`).  The declaration in `protocol.go` is of another revision (`Decoded`,
`SigPubKey`, `Hash`) and has neither `ID` nor `Clock`; the fields follow the
adapter, which is the code embedded here. -/
structure Message where
  Text : String
  Clock : Int
  ID : List Byte
  SigPubKey : Option PublicKey
deriving DecidableEq, Repr

/-- The struct `mvds.Payload`: the control lists (identifiers acknowledged,
offered and requested) and the embedded messages. -/
structure Payload where
  Acks : List (List Byte)
  Offers : List (List Byte)
  Requests : List (List Byte)
  Messages : List MvdsMessage
deriving DecidableEq, Repr

/-- One step of the inner loop of the library insertion sort: the new element
`x` sits right of the sorted part, held here last element first, and is
swapped leftwards while `less x y` holds for its left neighbour `y`. -/
def sinkLeft {α : Type} (less : α → α → Bool) (x : α) : List α → List α
  | [] => [x]
  | y :: ys => if less x y then y :: sinkLeft less x ys else x :: y :: ys

/-- Insertion sort as the library runs it on a short slice: elements are
taken left to right and each is sunk into the part already sorted.  It keeps
equal elements in their order. -/
def insertionSortSlice {α : Type} (less : α → α → Bool) (s : List α) : List α :=
  (s.foldl (fun sortedRev x => sinkLeft less x sortedRev) []).reverse

/-- The call `sort.Slice(s, less)` of the Go standard library.  The library
promises a rearrangement of `s` in which no element is `less` than one before
it; it is not stable, and which order equal elements take depends on the
length of the slice and on the release.  That order is the argument `tie`: when
`tie s` is such a rearrangement of `s` it is the result, and otherwise the
result is the stable one.  Every rearrangement the library may return is the
value for some `tie`, and nothing else is. -/
def sortSlice {α : Type} [DecidableEq α] (tie : List α → List α) (less : α → α → Bool)
    (s : List α) : List α :=
  if List.Pairwise (fun a b => less b a = false) (tie s) ∧ List.Perm (tie s) s then tie s
  else insertionSortSlice less s

/-- The loop body of `decodeMessages` for one embedded message: a body that
fails to decode leaves the slice as it is, a decoded one is appended with its
`ID` set. -/
def decodeStep (Sum256 : List Byte → Digest) (DecodeMessage : List Byte → Except String Message)
    (messages : List Message) (message : MvdsMessage) : List Message :=
  match DecodeMessage message.Body with
  | Except.error _ => messages
  | Except.ok decoded => messages ++ [{ decoded with ID := messageID Sum256 message }]

/-- The method `decodeMessages`.  `DecodeMessage` stands for
`protocol.DecodeMessage`, `tie` for the order `sort.Slice` gives to messages
of equal clock. -/
def decodeMessages (tie : List Message → List Message) (Sum256 : List Byte → Digest)
    (DecodeMessage : List Byte → Except String Message) (payload : Payload) : List Message :=
  let messages := payload.Messages.foldl (decodeStep Sum256 DecodeMessage) []
  sortSlice tie (fun a b => decide (a.Clock < b.Clock)) messages

/-- What one embedded message contributes to the result, in the words of the
specification: nothing when its body fails to decode, otherwise the decoded
message carrying the identity of its source. -/
def decodedWithID (Sum256 : List Byte → Digest)
    (DecodeMessage : List Byte → Except String Message) (message : MvdsMessage) :
    Option Message :=
  match DecodeMessage message.Body with
  | Except.error _ => none
  | Except.ok decoded => some { decoded with ID := messageID Sum256 message }

/-- Whether the body of an embedded message decodes. -/
def bodyDecodes (DecodeMessage : List Byte → Except String Message) (message : MvdsMessage) :
    Bool :=
  match DecodeMessage message.Body with
  | Except.error _ => false
  | Except.ok _ => true

/-! ## The protocol adapter and the sync engine -/

/-- The peer identifier `mvds.PeerID`. -/
abbrev PeerID := List Byte

/-- The methods of `mvds.Node` the adapter calls, over an engine state `σ`. -/
structure Node (σ : Type) where
  IsPeerInGroup : σ → GroupID → PeerID → Bool
  AddPeer : σ → GroupID → PeerID → σ
  Share : σ → GroupID → PeerID → σ
  AppendMessage : σ → GroupID → List Byte → Except String Digest × σ

/-- A call made on the sync engine. -/
inductive Call where
  | isPeerInGroup (group : GroupID) (peer : PeerID)
  | addPeer (group : GroupID) (peer : PeerID)
  | share (group : GroupID) (peer : PeerID)
  | appendMessage (group : GroupID) (data : List Byte)
deriving DecidableEq, Repr

/-- The engine behind a `DataSyncClient`: its state and the calls made on it
so far, oldest first. -/
structure Engine (σ : Type) where
  sync : σ
  calls : List Call

/-- The method `DataSyncClient.peer`.  `PublicKeyToPeerID` stands for
`mvds.PublicKeyToPeerID`. -/
def DataSyncClient.peer {σ : Type} (node : Node σ) (PublicKeyToPeerID : PublicKey → PeerID)
    (c : Engine σ) (id : GroupID) (peer : Option PublicKey) : Engine σ :=
  match peer with
  | none => c
  | some key =>
    let p := PublicKeyToPeerID key
    let c1 : Engine σ := { sync := c.sync, calls := c.calls ++ [Call.isPeerInGroup id p] }
    if node.IsPeerInGroup c.sync id p then
      c1
    else
      let c2 : Engine σ := { sync := node.AddPeer c1.sync id p, calls := c1.calls ++ [Call.addPeer id p] }
      { sync := node.Share c2.sync id p, calls := c2.calls ++ [Call.share id p] }

/-- The method `DataSyncClient.Send`: the returned pair is the result
(`Except.error` for a non-nil error) and the engine afterwards.  `ToTopic`
stands for the adapter function of that name. -/
def DataSyncClient.Send {σ : Type} (node : Node σ) (PublicKeyToPeerID : PublicKey → PeerID)
    (ToTopic : String → Except String TopicType)
    (c : Engine σ) (data : List Byte) (options : SendOptions) :
    Except String (List Byte) × Engine σ :=
  match options.Validate with
  | some err => (Except.error err, c)
  | none =>
    if options.ChatName = "" then
      (Except.error "missing chat name", c)
    else
      match ToTopic options.ChatName with
      | Except.error err => (Except.error err, c)
      | Except.ok topic =>
        let gid := toGroupId topic
        let c1 := DataSyncClient.peer node PublicKeyToPeerID c gid options.Recipient
        match node.AppendMessage c1.sync (toGroupId topic) data with
        | (Except.error err, s) =>
          (Except.error err,
            { sync := s, calls := c1.calls ++ [Call.appendMessage (toGroupId topic) data] })
        | (Except.ok id, s) =>
          (Except.ok id.val,
            { sync := s, calls := c1.calls ++ [Call.appendMessage (toGroupId topic) data] })

/-! ## The polling loop of a subscription -/

/-- The fields of `whisper.ReceivedMessage` the loop reads.  `Src` is a
pointer, which the loop dereferences for the packet and copies for the
messages; `none` is `nil`. -/
structure ReceivedMessage where
  Payload : List Byte
  Topic : TopicType
  Src : Option PublicKey
  EnvelopeHash : List Byte

/-- The struct `mvds.Packet`. -/
structure Packet where
  Group : GroupID
  Sender : PeerID
  Payload : Payload
deriving DecidableEq, Repr

/-- A value sent by the loop: on the transport's packet channel `t.packets`,
or on the subscriber's channel `in`. -/
inductive Emitted where
  | packet (p : Packet)
  | message (m : Message)
deriving DecidableEq, Repr

/-- The method `handlePayload`: `nil` when the payload does not unmarshal.
`Unmarshal` stands for `proto.Unmarshal` into an `mvds.Payload`. -/
def handlePayload (Unmarshal : List Byte → Except String Payload) (received : ReceivedMessage) :
    Option Payload :=
  match Unmarshal received.Payload with
  | Except.error _ => none
  | Except.ok payload => some payload

/-- How the body of the loop ended: it ran through, or it dereferenced a
`nil` pointer. -/
inductive Outcome where
  | completed
  | nilDereference
deriving DecidableEq, Repr

/-- The body of `for _, item := range received` for one envelope: the values
sent, in order, and how the body ended.  The packet literal reads `*item.Src`
before anything is sent. -/
def processItem (tie : List Message → List Message) (Sum256 : List Byte → Digest)
    (DecodeMessage : List Byte → Except String Message)
    (Unmarshal : List Byte → Except String Payload)
    (PublicKeyToPeerID : PublicKey → PeerID) (item : ReceivedMessage) :
    List Emitted × Outcome :=
  match handlePayload Unmarshal item with
  | none => ([], Outcome.completed)
  | some payload =>
    match item.Src with
    | none => ([], Outcome.nilDereference)
    | some src =>
      let packet : Packet :=
        { Group := toGroupId item.Topic, Sender := PublicKeyToPeerID src, Payload := payload }
      let messages := decodeMessages tie Sum256 DecodeMessage payload
      (Emitted.packet packet ::
        messages.map (fun m => Emitted.message { m with SigPubKey := item.Src }),
       Outcome.completed)

/-- The loop `for _, item := range received` of one polling tick. -/
def processReceived (tie : List Message → List Message) (Sum256 : List Byte → Digest)
    (DecodeMessage : List Byte → Except String Message)
    (Unmarshal : List Byte → Except String Payload)
    (PublicKeyToPeerID : PublicKey → PeerID) :
    List ReceivedMessage → List Emitted × Outcome
  | [] => ([], Outcome.completed)
  | item :: rest =>
    match processItem tie Sum256 DecodeMessage Unmarshal PublicKeyToPeerID item with
    | (sent, Outcome.nilDereference) => (sent, Outcome.nilDereference)
    | (sent, Outcome.completed) =>
      let r := processReceived tie Sum256 DecodeMessage Unmarshal PublicKeyToPeerID rest
      (sent ++ r.1, r.2)

/-- The packets among the values sent, in order: the traffic of `t.packets`. -/
def packetsOf : List Emitted → List Packet
  | [] => []
  | Emitted.packet p :: rest => p :: packetsOf rest
  | Emitted.message _ :: rest => packetsOf rest

/-- The messages among the values sent, in order: the traffic of `in`. -/
def messagesOf : List Emitted → List Message
  | [] => []
  | Emitted.packet _ :: rest => messagesOf rest
  | Emitted.message m :: rest => m :: messagesOf rest

/-- The packet the specification attributes to one envelope: none when the
payload does not deserialize, otherwise group from the envelope's topic,
sender from the envelope's origin, and the deserialized payload. -/
def packetFor (Unmarshal : List Byte → Except String Payload)
    (PublicKeyToPeerID : PublicKey → PeerID) (item : ReceivedMessage) : Option Packet :=
  match Unmarshal item.Payload, item.Src with
  | Except.ok payload, some src =>
    some { Group := toGroupId item.Topic, Sender := PublicKeyToPeerID src, Payload := payload }
  | _, _ => none

/-- The messages the specification attributes to one envelope: none when the
payload does not deserialize, otherwise the decoded and ordered messages of
the payload, each with the envelope's origin as `SigPubKey`. -/
def messagesFor (tie : List Message → List Message) (Sum256 : List Byte → Digest)
    (DecodeMessage : List Byte → Except String Message)
    (Unmarshal : List Byte → Except String Payload) (item : ReceivedMessage) : List Message :=
  match Unmarshal item.Payload with
  | Except.error _ => []
  | Except.ok payload =>
    (decodeMessages tie Sum256 DecodeMessage payload).map
      (fun m => { m with SigPubKey := item.Src })

/-! ## Stand-ins for the collaborators, used to run the definitions -/

/-- A sync engine whose state is the membership list: `AddPeer` records the
pair, `Share` changes nothing, `AppendMessage` answers with a zero identifier. -/
def listNode : Node (List (GroupID × PeerID)) where
  IsPeerInGroup := fun s g p => decide ((g, p) ∈ s)
  AddPeer := fun s g p => (g, p) :: s
  Share := fun s _ _ => s
  AppendMessage := fun s _ _ => (Except.ok ⟨zeroBytes 32, by decide⟩, s)

/-- A peer identifier made of the low bytes of the two coordinates. -/
def xyPeerID (k : PublicKey) : PeerID := [toByte k.X, toByte k.Y]

/-- A chat-name hash that is given: the first four bytes of the name, padded
with zeros; the empty name is refused. -/
def firstFourTopic (name : String) : Except String TopicType :=
  if name = "" then Except.error "empty name"
  else Except.ok ⟨goCopy (zeroBytes TopicLength) (stringBytes name), by
    simp only [goCopy, zeroBytes, List.length_append, List.length_take, List.length_drop,
      List.length_replicate]
    omega⟩

/-- A digest function that is given: always the zero digest. -/
def zeroSum256 (_ : List Byte) : Digest := ⟨zeroBytes 32, by decide⟩

/-- A digest function that is given: the last byte of the input, then 31 zero
bytes. -/
def lastByteSum256 (b : List Byte) : Digest :=
  ⟨(b.getLast?.getD 0) :: zeroBytes 31, by simp [zeroBytes]⟩

/-- A body decoder that is given: the first byte is the clock, an empty body
does not decode. -/
def firstByteDecode : List Byte → Except String Message
  | [] => Except.error "empty body"
  | b :: _ => Except.ok { Text := "", Clock := (b.val : Int), ID := [], SigPubKey := none }

/-- One embedded message per byte, the byte being its body. -/
def bytewiseMessages (bs : List Byte) : List MvdsMessage :=
  bs.map (fun b =>
    { GroupId := [], Timestamp := 0, Body := [b], XXX_unrecognized := [], XXX_sizecache := 0 })

/-- A payload decoder that is given: a byte string that starts with 255 does
not deserialize; any other does, the empty one included (as `proto.Unmarshal`
reads no bytes as the empty payload), and holds one embedded message per
byte. -/
def bytewiseUnmarshal : List Byte → Except String Payload
  | [] => Except.ok { Acks := [], Offers := [], Requests := [], Messages := [] }
  | b :: bs =>
    if b = 255 then Except.error "proto: illegal tag"
    else Except.ok
      { Acks := [], Offers := [], Requests := [], Messages := bytewiseMessages (b :: bs) }

/-- A tie order that is given: the slice as it stands is proposed, so equal
clocks keep their order. -/
def stableTie (s : List Message) : List Message := s

/-- A tie order that is given: the slice reversed is proposed, so a slice of
equal clocks comes out in the opposite order. -/
def reverseTie (s : List Message) : List Message := s.reverse

/-- A payload that embeds three messages, with the clocks 10, 5 and 20. -/
def examplePayload : Payload :=
  { Acks := [], Offers := [], Requests := [], Messages := bytewiseMessages [10, 5, 20] }

/-- A batch of two envelopes on one topic: the payload of the first does not
deserialize and it has no signature, the second is signed and embeds the
clocks 10, 5 and 20. -/
def exampleBatch : List ReceivedMessage :=
  [{ Payload := [255], Topic := ⟨[1, 2, 3, 4], by decide⟩, Src := none, EnvelopeHash := [] },
   { Payload := [10, 5, 20], Topic := ⟨[1, 2, 3, 4], by decide⟩,
     Src := some { X := 7, Y := 9 }, EnvelopeHash := [] }]

/-- An envelope without a signature (`Src` is `nil`) whose payload is empty
and so deserializes to the empty payload. -/
def unsignedEnvelope : ReceivedMessage :=
  { Payload := [], Topic := ⟨[1, 2, 3, 4], by decide⟩, Src := none, EnvelopeHash := [] }

/-- A batch of two envelopes on one topic whose payloads both deserialize: the
unsigned envelope, then a signed one that embeds the clocks 10, 5 and 20. -/
def unsignedBatch : List ReceivedMessage :=
  [unsignedEnvelope,
   { Payload := [10, 5, 20], Topic := ⟨[1, 2, 3, 4], by decide⟩,
     Src := some { X := 7, Y := 9 }, EnvelopeHash := [] }]

/-! ## Theorems: option validation -/

/-- C1. For each of the three option types, `Validate` returns `nil` exactly
when one and only one of `ChatName != ""` and `Recipient != nil` holds,
whatever `Limit`, `From` and `To` are; in particular it returns an error when
neither destination is set and when both are. -/
theorem validate_nil_iff_exactly_one :
    (∀ o : SendOptions, o.Validate = none ↔ exactlyOneDestination o.ChatName o.Recipient) ∧
    (∀ o : SubscribeOptions, o.Validate = none ↔ exactlyOneDestination o.ChatName o.Recipient) ∧
    (∀ o : RequestOptions, o.Validate = none ↔ exactlyOneDestination o.ChatName o.Recipient) := by
  refine ⟨?_, ?_, ?_⟩
  · rintro ⟨⟨name, recipient⟩⟩
    simp only [SendOptions.Validate, SendOptions.ChatName, SendOptions.Recipient,
      exactlyOneDestination]
    by_cases h1 : name = "" <;> by_cases h2 : recipient = none <;> simp [h1, h2]
  · rintro ⟨⟨name, recipient⟩⟩
    simp only [SubscribeOptions.Validate, SubscribeOptions.ChatName, SubscribeOptions.Recipient,
      SubscribeOptions.zero, ChatOptions.zero, exactlyOneDestination,
      SubscribeOptions.mk.injEq, ChatOptions.mk.injEq]
    by_cases h1 : name = "" <;> by_cases h2 : recipient = none <;> simp [h1, h2]
  · rintro ⟨⟨name, recipient⟩, limit, lo, hi⟩
    simp only [RequestOptions.Validate, RequestOptions.ChatName, RequestOptions.Recipient,
      RequestOptions.zero, ChatOptions.zero, exactlyOneDestination,
      RequestOptions.mk.injEq, ChatOptions.mk.injEq]
    by_cases h1 : name = "" <;> by_cases h2 : recipient = none <;> simp [h1, h2]
    split <;> simp

/-! ## Theorems: the topic and group codec -/

theorem toTopicType_val (g : GroupID) : (toTopicType g).val = g.val.take 4 := by
  have hg : g.val.length = 32 := g.property
  simp [toTopicType, goCopy, zeroBytes, TopicLength, hg]

theorem toGroupId_val (t : TopicType) : (toGroupId t).val = t.val ++ zeroBytes 28 := by
  have ht : t.val.length = 4 := t.property
  simp [toGroupId, goCopy, zeroBytes, GroupIDLength, ht]

/-- C4. For every group `G`, `toGroupId (toTopicType G)` is the first four
bytes of `G` followed by 28 zero bytes; it is `G` itself exactly when bytes
4..31 of `G` are zero; and two groups have the same topic exactly when their
first four bytes agree. -/
theorem toGroupId_toTopicType (G : GroupID) :
    (toGroupId (toTopicType G)).val = G.val.take 4 ++ zeroBytes 28 ∧
    (toGroupId (toTopicType G) = G ↔ G.val.drop 4 = zeroBytes 28) ∧
    (∀ G2 : GroupID, toTopicType G = toTopicType G2 ↔ G.val.take 4 = G2.val.take 4) := by
  have hval : (toGroupId (toTopicType G)).val = G.val.take 4 ++ zeroBytes 28 := by
    rw [toGroupId_val, toTopicType_val]
  refine ⟨hval, ?_, ?_⟩
  · rw [Subtype.ext_iff, hval]
    constructor
    · intro h
      have h2 : G.val.take 4 ++ zeroBytes 28 = G.val.take 4 ++ G.val.drop 4 := by
        rw [List.take_append_drop]; exact h
      exact (List.append_cancel_left h2).symm
    · intro h
      rw [← h, List.take_append_drop]
  · intro G2
    rw [Subtype.ext_iff, toTopicType_val, toTopicType_val]

/-- C9. For every topic `t`, `toTopicType (toGroupId t) = t`; hence
`toGroupId` is injective, and a packet whose group came from an envelope's
topic goes out on that same topic. -/
theorem toTopicType_toGroupId :
    (∀ t : TopicType, toTopicType (toGroupId t) = t) ∧ Function.Injective toGroupId := by
  have h : ∀ t : TopicType, toTopicType (toGroupId t) = t := by
    intro t
    have ht : t.val.length = 4 := t.property
    apply Subtype.ext
    rw [toTopicType_val, toGroupId_val, List.take_append_of_le_length (by omega)]
    exact List.take_of_length_le (by omega)
  exact ⟨h, Function.LeftInverse.injective h⟩

/-! ## Theorems: the send-time scheduler -/

/-- C3, as the claim states it, fails: with retry count 1 at the largest
epoch the sum leaves the `int64` range and wraps to the smallest values. -/
theorem CalculateSendTime_wraps :
    (1 : Nat) < 2 ^ 64 ∧ (-(2 : Int) ^ 63 ≤ 2 ^ 63 - 1 ∧ (2 : Int) ^ 63 - 1 < 2 ^ 63) ∧
    CalculateSendTime 1 (2 ^ 63 - 1) = -(2 : Int) ^ 63 + 1 ∧
    CalculateSendTime 1 (2 ^ 63 - 1) ≠ (2 ^ 63 - 1) + 2 * ((1 : Nat) : Int) := by
  decide

theorem wrapInt64_sendTime (n : Nat) (T : Int) :
    CalculateSendTime n T = wrapInt64 (T + 2 * (n : Int)) := by
  simp only [CalculateSendTime, wrapInt64, uint64ToInt64]
  norm_num
  split <;> omega

/-- C3, amended. For every retry count `n` (a `uint64`) and epoch `T` (an
`int64`) such that `T + 2*n` is at most `2^63 - 1`, `CalculateSendTime n T`
equals `T + 2*n` as integers; in particular `CalculateSendTime 0 T = T`. -/
theorem CalculateSendTime_eq (n : Nat) (T : Int) (hn : n < 2 ^ 64)
    (hlo : -(2 : Int) ^ 63 ≤ T) (hhi : T + 2 * (n : Int) < 2 ^ 63) :
    CalculateSendTime n T = T + 2 * (n : Int) ∧ CalculateSendTime 0 T = T := by
  simp only [CalculateSendTime, wrapInt64, uint64ToInt64]
  norm_num at hn hlo hhi ⊢
  constructor
  · split <;> omega
  · omega

/-- The amended C3 at retry count 3 and epoch 100. -/
theorem CalculateSendTime_eq_witness :
    ((3 : Nat) < 2 ^ 64 ∧ -(2 : Int) ^ 63 ≤ 100 ∧ (100 : Int) + 2 * ((3 : Nat) : Int) < 2 ^ 63) ∧
    CalculateSendTime 3 100 = 100 + 2 * ((3 : Nat) : Int) ∧ CalculateSendTime 0 100 = 100 :=
  ⟨by decide, CalculateSendTime_eq 3 100 (by decide) (by decide) (by decide)⟩

/-! ## Theorems: message identity -/

theorem PutUint64_eq_littleEndian (v : Nat) : PutUint64 v = littleEndian 8 v := by
  simp [PutUint64, littleEndian, List.range, List.range.loop, Nat.shiftRight_eq_div_pow]

theorem littleEndianValue_PutUint64 (v : Nat) : littleEndianValue (PutUint64 v) = v % 2 ^ 64 := by
  simp only [PutUint64, littleEndianValue, toByte, Nat.shiftRight_eq_div_pow]
  norm_num
  omega

theorem stringBytes_tag : stringBytes "MESSAGE_ID" = messageIDTag := by
  decide

/-- C5. For every message `m`, `messageID m` is the 32-byte SHA-256 digest of
the tag `MESSAGE_ID`, then `m.GroupId`, then the 8-byte little-endian encoding
of `m.Timestamp` read as a `uint64`, then `m.Body`; messages that agree on
group, timestamp and body have the same id. -/
theorem messageID_eq_spec (Sum256 : List Byte → Digest) (m : MvdsMessage) :
    messageID Sum256 m = messageIDSpec Sum256 m.GroupId m.Timestamp m.Body ∧
    (messageID Sum256 m).length = 32 ∧
    (∀ m2 : MvdsMessage, m2.GroupId = m.GroupId ∧ m2.Timestamp = m.Timestamp ∧ m2.Body = m.Body →
      messageID Sum256 m2 = messageID Sum256 m) := by
  have key : ∀ x : MvdsMessage,
      messageID Sum256 x = messageIDSpec Sum256 x.GroupId x.Timestamp x.Body := by
    intro x
    simp only [messageID, messageIDSpec, goCopy, zeroBytes, List.length_replicate, min_self,
      List.take_length, stringBytes_tag, PutUint64_eq_littleEndian, int64ToUint64]
    simp
  refine ⟨key m, ?_, ?_⟩
  · rw [key m]; exact (Sum256 _).property
  · rintro m2 ⟨h1, h2, h3⟩
    rw [key m2, key m, h1, h2, h3]

/-! ## Theorems: decoding and ordering -/

theorem sinkLeft_perm {α : Type} (less : α → α → Bool) (x : α) (l : List α) :
    List.Perm (sinkLeft less x l) (x :: l) := by
  induction l with
  | nil => exact List.Perm.refl _
  | cons y ys ih =>
    simp only [sinkLeft]
    split
    · exact (List.Perm.cons y ih).trans (List.Perm.swap x y ys)
    · exact List.Perm.refl _

theorem foldl_sinkLeft_perm {α : Type} (less : α → α → Bool) (s acc : List α) :
    List.Perm (s.foldl (fun sortedRev x => sinkLeft less x sortedRev) acc) (s ++ acc) := by
  induction s generalizing acc with
  | nil => exact List.Perm.refl _
  | cons x xs ih =>
    simp only [List.foldl_cons, List.cons_append]
    refine (ih _).trans ?_
    refine (List.Perm.append_left xs (sinkLeft_perm less x acc)).trans ?_
    exact List.perm_middle

theorem insertionSortSlice_perm {α : Type} (less : α → α → Bool) (s : List α) :
    List.Perm (insertionSortSlice less s) s := by
  unfold insertionSortSlice
  refine (List.reverse_perm _).trans ?_
  simpa using foldl_sinkLeft_perm less s []

theorem sortSlice_perm {α : Type} [DecidableEq α] (tie : List α → List α)
    (less : α → α → Bool) (s : List α) : List.Perm (sortSlice tie less s) s := by
  unfold sortSlice
  split
  next h => exact h.2
  next => exact insertionSortSlice_perm less s

theorem sortSlice_of_sorted_perm {α : Type} [DecidableEq α] (less : α → α → Bool)
    (s r : List α) (hsorted : List.Pairwise (fun a b => less b a = false) r)
    (hperm : List.Perm r s) : sortSlice (fun _ => r) less s = r := by
  unfold sortSlice
  rw [if_pos ⟨hsorted, hperm⟩]

theorem sinkLeft_descending {α : Type} (key : α → Int) (x : α) (l : List α)
    (h : List.Pairwise (fun a b => key b ≤ key a) l) :
    List.Pairwise (fun a b => key b ≤ key a)
      (sinkLeft (fun a b => decide (key a < key b)) x l) := by
  induction l with
  | nil => simp [sinkLeft]
  | cons y ys ih =>
    rw [List.pairwise_cons] at h
    simp only [sinkLeft]
    split
    next hlt =>
      have hlt2 : key x < key y := by simpa using hlt
      rw [List.pairwise_cons]
      refine ⟨?_, ih h.2⟩
      intro z hz
      have hz2 : z ∈ x :: ys := (sinkLeft_perm _ x ys).subset hz
      rcases List.mem_cons.mp hz2 with rfl | hz3
      · exact le_of_lt hlt2
      · exact h.1 z hz3
    next hge =>
      have hge2 : key y ≤ key x := by simpa using hge
      rw [List.pairwise_cons]
      refine ⟨?_, List.pairwise_cons.mpr h⟩
      intro z hz
      rcases List.mem_cons.mp hz with rfl | hz3
      · exact hge2
      · exact le_trans (h.1 z hz3) hge2

theorem foldl_sinkLeft_descending {α : Type} (key : α → Int) (s acc : List α)
    (h : List.Pairwise (fun a b => key b ≤ key a) acc) :
    List.Pairwise (fun a b => key b ≤ key a)
      (s.foldl (fun sortedRev x => sinkLeft (fun a b => decide (key a < key b)) x sortedRev)
        acc) := by
  induction s generalizing acc with
  | nil => exact h
  | cons x xs ih => exact ih _ (sinkLeft_descending key x acc h)

theorem insertionSortSlice_sorted {α : Type} (key : α → Int) (s : List α) :
    List.Pairwise (fun a b => key a ≤ key b)
      (insertionSortSlice (fun a b => decide (key a < key b)) s) := by
  unfold insertionSortSlice
  rw [List.pairwise_reverse]
  exact foldl_sinkLeft_descending key s [] List.Pairwise.nil

theorem sortSlice_sorted {α : Type} [DecidableEq α] (tie : List α → List α) (key : α → Int)
    (s : List α) :
    List.Pairwise (fun a b => key a ≤ key b)
      (sortSlice tie (fun a b => decide (key a < key b)) s) := by
  unfold sortSlice
  split
  next h =>
    refine List.Pairwise.imp ?_ h.1
    intro a b hab
    have : ¬ key b < key a := by simpa using hab
    exact not_lt.mp this
  next => exact insertionSortSlice_sorted key s

theorem foldl_decodeStep (Sum256 : List Byte → Digest)
    (DecodeMessage : List Byte → Except String Message) (ms : List MvdsMessage)
    (acc : List Message) :
    ms.foldl (decodeStep Sum256 DecodeMessage) acc =
      acc ++ ms.filterMap (decodedWithID Sum256 DecodeMessage) := by
  induction ms generalizing acc with
  | nil => simp
  | cons m rest ih =>
    rw [List.foldl_cons, ih]
    cases hd : DecodeMessage m.Body with
    | error e => simp [decodeStep, decodedWithID, List.filterMap_cons, hd]
    | ok d => simp [decodeStep, decodedWithID, List.filterMap_cons, hd]

theorem decoded_perm_of_decodeMessages (tie : List Message → List Message)
    (Sum256 : List Byte → Digest) (DecodeMessage : List Byte → Except String Message)
    (payload : Payload) :
    List.Perm (decodeMessages tie Sum256 DecodeMessage payload)
      (payload.Messages.filterMap (decodedWithID Sum256 DecodeMessage)) := by
  unfold decodeMessages
  refine (sortSlice_perm _ _ _).trans ?_
  rw [foldl_decodeStep]
  simp

theorem decodeMessages_pairwise (tie : List Message → List Message)
    (Sum256 : List Byte → Digest) (DecodeMessage : List Byte → Except String Message)
    (payload : Payload) :
    List.Pairwise (fun a b : Message => a.Clock ≤ b.Clock)
      (decodeMessages tie Sum256 DecodeMessage payload) := by
  unfold decodeMessages
  exact sortSlice_sorted tie (fun m : Message => m.Clock) _

theorem decodeMessages_clocks (tie : List Message → List Message)
    (Sum256 : List Byte → Digest) (DecodeMessage : List Byte → Except String Message)
    (payload : Payload) :
    (decodeMessages tie Sum256 DecodeMessage payload).map (fun m => m.Clock) =
      List.insertionSort (fun a b : Int => a ≤ b)
        ((payload.Messages.filterMap (decodedWithID Sum256 DecodeMessage)).map
          (fun m => m.Clock)) := by
  refine List.eq_of_perm_of_sorted (r := fun a b : Int => a ≤ b) ?_ ?_ ?_
  · exact ((decoded_perm_of_decodeMessages tie Sum256 DecodeMessage payload).map _).trans
      (List.perm_insertionSort _ _).symm
  · exact List.pairwise_map.mpr (decodeMessages_pairwise tie Sum256 DecodeMessage payload)
  · exact List.sorted_insertionSort _ _

/-- C6. For every payload, and whatever order `sort.Slice` gives to equal
clocks, the list `decodeMessages` returns is sorted by non-decreasing `Clock`:
whenever one element stands before another its clock is at most the other's,
and the clocks of the result, read in order, are the clocks of the decodable
embedded messages in ascending order.  Embedded clocks 10, 5, 20 are
delivered as 5, 10, 20. -/
theorem decodeMessages_sorted (tie : List Message → List Message)
    (Sum256 : List Byte → Digest) (DecodeMessage : List Byte → Except String Message)
    (payload : Payload) :
    List.Pairwise (fun a b : Message => a.Clock ≤ b.Clock)
      (decodeMessages tie Sum256 DecodeMessage payload) ∧
    (decodeMessages tie Sum256 DecodeMessage payload).map (fun m => m.Clock) =
      List.insertionSort (fun a b : Int => a ≤ b)
        ((payload.Messages.filterMap (decodedWithID Sum256 DecodeMessage)).map
          (fun m => m.Clock)) ∧
    (decodeMessages tie zeroSum256 firstByteDecode examplePayload).map (fun m => m.Clock) =
      [5, 10, 20] := by
  refine ⟨decodeMessages_pairwise tie Sum256 DecodeMessage payload,
    decodeMessages_clocks tie Sum256 DecodeMessage payload, ?_⟩
  rw [decodeMessages_clocks]
  decide

/-- C7. For every payload, and whatever order `sort.Slice` gives to equal
clocks, the list `decodeMessages` returns is a permutation of the embedded
messages whose body decodes, each with `ID` set to the `messageID` of its
source; a body that fails to decode contributes nothing, so the length of the
result is the number of decodable bodies. -/
theorem decodeMessages_perm (tie : List Message → List Message) (Sum256 : List Byte → Digest)
    (DecodeMessage : List Byte → Except String Message) (payload : Payload) :
    List.Perm (decodeMessages tie Sum256 DecodeMessage payload)
      (payload.Messages.filterMap (decodedWithID Sum256 DecodeMessage)) ∧
    (decodeMessages tie Sum256 DecodeMessage payload).length =
      (payload.Messages.filter (fun m => bodyDecodes DecodeMessage m)).length := by
  have hperm := decoded_perm_of_decodeMessages tie Sum256 DecodeMessage payload
  refine ⟨hperm, ?_⟩
  rw [hperm.length_eq]
  generalize payload.Messages = ms
  induction ms with
  | nil => rfl
  | cons m rest ih =>
    cases hd : DecodeMessage m.Body with
    | error e => simp [decodedWithID, bodyDecodes, List.filterMap_cons, List.filter_cons, hd, ih]
    | ok d => simp [decodedWithID, bodyDecodes, List.filterMap_cons, List.filter_cons, hd, ih]

/-- An undecodable body between decodable ones is dropped and the rest is
delivered in clock order. -/
theorem decodeMessages_example :
    (decodeMessages stableTie zeroSum256 firstByteDecode
      { Acks := [], Offers := [], Requests := [],
        Messages := [
          { GroupId := [], Timestamp := 0, Body := [10], XXX_unrecognized := [], XXX_sizecache := 0 },
          { GroupId := [], Timestamp := 0, Body := [], XXX_unrecognized := [], XXX_sizecache := 0 },
          { GroupId := [], Timestamp := 0, Body := [5], XXX_unrecognized := [], XXX_sizecache := 0 },
          { GroupId := [], Timestamp := 0, Body := [20], XXX_unrecognized := [], XXX_sizecache := 0 }] }).map
      (fun m => m.Clock) = [5, 10, 20] := by
  decide

/-- Two messages of equal clock, told apart by their identity: one tie order
returns them as embedded, the other in the opposite order. -/
theorem decodeMessages_ties :
    (decodeMessages stableTie lastByteSum256 firstByteDecode
      { Acks := [], Offers := [], Requests := [],
        Messages := bytewiseMessages [5] ++ [
          { GroupId := [], Timestamp := 0, Body := [5, 2], XXX_unrecognized := [],
            XXX_sizecache := 0 }] }).map
      (fun m => (m.Clock, m.ID.take 1)) = [(5, [5]), (5, [2])] ∧
    (decodeMessages reverseTie lastByteSum256 firstByteDecode
      { Acks := [], Offers := [], Requests := [],
        Messages := bytewiseMessages [5] ++ [
          { GroupId := [], Timestamp := 0, Body := [5, 2], XXX_unrecognized := [],
            XXX_sizecache := 0 }] }).map
      (fun m => (m.Clock, m.ID.take 1)) = [(5, [2]), (5, [5])] := by
  decide

/-! ## Theorems: the protocol adapter -/

theorem peer_not_member {σ : Type} (node : Node σ) (PublicKeyToPeerID : PublicKey → PeerID)
    (c : Engine σ) (id : GroupID) (K : PublicKey)
    (h : node.IsPeerInGroup c.sync id (PublicKeyToPeerID K) = false) :
    (DataSyncClient.peer node PublicKeyToPeerID c id (some K)).calls =
      c.calls ++ [Call.isPeerInGroup id (PublicKeyToPeerID K),
        Call.addPeer id (PublicKeyToPeerID K), Call.share id (PublicKeyToPeerID K)] ∧
    (DataSyncClient.peer node PublicKeyToPeerID c id (some K)).sync =
      node.Share (node.AddPeer c.sync id (PublicKeyToPeerID K)) id (PublicKeyToPeerID K) := by
  simp [DataSyncClient.peer, h]

theorem peer_member {σ : Type} (node : Node σ) (PublicKeyToPeerID : PublicKey → PeerID)
    (c : Engine σ) (id : GroupID) (K : PublicKey)
    (h : node.IsPeerInGroup c.sync id (PublicKeyToPeerID K) = true) :
    (DataSyncClient.peer node PublicKeyToPeerID c id (some K)).calls =
      c.calls ++ [Call.isPeerInGroup id (PublicKeyToPeerID K)] ∧
    (DataSyncClient.peer node PublicKeyToPeerID c id (some K)).sync = c.sync := by
  simp [DataSyncClient.peer, h]

theorem peer_nil {σ : Type} (node : Node σ) (PublicKeyToPeerID : PublicKey → PeerID)
    (c : Engine σ) (id : GroupID) :
    DataSyncClient.peer node PublicKeyToPeerID c id none = c := rfl

/-- C8. For every `SendOptions` that sets both or neither of `ChatName` and
`Recipient`, `Send` returns an error and the engine afterwards is the engine
before: the same state, and no call added to those made so far. -/
theorem Send_invalid_options {σ : Type} (node : Node σ) (PublicKeyToPeerID : PublicKey → PeerID)
    (ToTopic : String → Except String TopicType) (c : Engine σ) (data : List Byte)
    (options : SendOptions)
    (h : (options.ChatName ≠ "" ∧ options.Recipient ≠ none) ∨
      (options.ChatName = "" ∧ options.Recipient = none)) :
    ∃ err, DataSyncClient.Send node PublicKeyToPeerID ToTopic c data options =
      (Except.error err, c) := by
  obtain ⟨⟨name, recipient⟩⟩ := options
  simp only [SendOptions.ChatName, SendOptions.Recipient] at h
  rcases h with ⟨h1, h2⟩ | ⟨h1, h2⟩
  · exact ⟨"fields ChatName and Recipient both set", by
      simp [DataSyncClient.Send, SendOptions.Validate, SendOptions.ChatName,
        SendOptions.Recipient, h1, h2]⟩
  · exact ⟨"field ChatName or Recipient is required", by
      simp [DataSyncClient.Send, SendOptions.Validate, SendOptions.ChatName,
        SendOptions.Recipient, h1, h2]⟩

/-- C8 at options that set both a chat name and a recipient. -/
theorem Send_invalid_options_witness :
    (("status" ≠ "" ∧ some (PublicKey.mk 1 2) ≠ none) ∨
      ("status" = "" ∧ some (PublicKey.mk 1 2) = none)) ∧
    ∃ err, DataSyncClient.Send listNode xyPeerID firstFourTopic
      { sync := [], calls := [] } [1, 2, 3]
      { toChatOptions := { ChatName := "status", Recipient := some (PublicKey.mk 1 2) } } =
      (Except.error err, { sync := [], calls := [] }) :=
  ⟨by decide,
   Send_invalid_options listNode xyPeerID firstFourTopic { sync := [], calls := [] } [1, 2, 3]
    { toChatOptions := { ChatName := "status", Recipient := some (PublicKey.mk 1 2) } }
    (by decide)⟩

/-- C2, what the code does. For every engine and every recipient key `K`,
`Send` with `K` as the recipient returns an error and leaves the engine as it
was, without `AddPeer`, `Share` or `AppendMessage`: with an empty `ChatName`
the error is "missing chat name", with any other the options do not validate. -/
theorem Send_with_recipient_rejected {σ : Type} (node : Node σ)
    (PublicKeyToPeerID : PublicKey → PeerID) (ToTopic : String → Except String TopicType)
    (c : Engine σ) (data : List Byte) (K : PublicKey) :
    DataSyncClient.Send node PublicKeyToPeerID ToTopic c data
      { toChatOptions := { ChatName := "", Recipient := some K } } =
      (Except.error "missing chat name", c) ∧
    (∀ name : String, name ≠ "" →
      DataSyncClient.Send node PublicKeyToPeerID ToTopic c data
        { toChatOptions := { ChatName := name, Recipient := some K } } =
        (Except.error "fields ChatName and Recipient both set", c)) := by
  constructor
  · simp [DataSyncClient.Send, SendOptions.Validate, SendOptions.ChatName, SendOptions.Recipient]
  · intro name hname
    simp [DataSyncClient.Send, SendOptions.Validate, SendOptions.ChatName,
      SendOptions.Recipient, hname]

theorem Send_calls {σ : Type} (node : Node σ)
    (PublicKeyToPeerID : PublicKey → PeerID) (ToTopic : String → Except String TopicType)
    (c : Engine σ) (data : List Byte) (options : SendOptions) :
    (DataSyncClient.Send node PublicKeyToPeerID ToTopic c data options).2.calls = c.calls ∨
    ∃ g, (DataSyncClient.Send node PublicKeyToPeerID ToTopic c data options).2.calls =
      c.calls ++ [Call.appendMessage g data] := by
  obtain ⟨⟨name, recipient⟩⟩ := options
  simp only [DataSyncClient.Send, SendOptions.Validate, SendOptions.ChatName,
    SendOptions.Recipient]
  by_cases h1 : name = ""
  · cases recipient <;> simp [h1]
  · cases recipient with
    | some K => simp [h1]
    | none =>
      simp only [h1, DataSyncClient.peer]
      cases ToTopic name with
      | error e => simp
      | ok topic =>
        rcases ha : node.AppendMessage c.sync (toGroupId topic) data with ⟨r, s⟩
        cases r <;> simp [ha]

/-! ## Theorems: the polling loop -/

theorem packetsOf_append (a b : List Emitted) :
    packetsOf (a ++ b) = packetsOf a ++ packetsOf b := by
  induction a with
  | nil => rfl
  | cons e rest ih => cases e <;> simp [packetsOf, ih]

theorem messagesOf_append (a b : List Emitted) :
    messagesOf (a ++ b) = messagesOf a ++ messagesOf b := by
  induction a with
  | nil => rfl
  | cons e rest ih => cases e <;> simp [messagesOf, ih]

theorem packetsOf_messages (f : Message → Message) (l : List Message) :
    packetsOf (l.map (fun m => Emitted.message (f m))) = [] := by
  induction l with
  | nil => rfl
  | cons m rest ih => simp [packetsOf, ih]

theorem messagesOf_messages (f : Message → Message) (l : List Message) :
    messagesOf (l.map (fun m => Emitted.message (f m))) = l.map f := by
  induction l with
  | nil => rfl
  | cons m rest ih => simp [messagesOf, ih]

theorem processItem_undecodable (tie : List Message → List Message)
    (Sum256 : List Byte → Digest)
    (DecodeMessage : List Byte → Except String Message)
    (Unmarshal : List Byte → Except String Payload)
    (PublicKeyToPeerID : PublicKey → PeerID) (item : ReceivedMessage)
    (h : handlePayload Unmarshal item = none) :
    processItem tie Sum256 DecodeMessage Unmarshal PublicKeyToPeerID item =
      ([], Outcome.completed) := by
  simp [processItem, h]

theorem processItem_signed (tie : List Message → List Message)
    (Sum256 : List Byte → Digest)
    (DecodeMessage : List Byte → Except String Message)
    (Unmarshal : List Byte → Except String Payload)
    (PublicKeyToPeerID : PublicKey → PeerID) (item : ReceivedMessage)
    (h : handlePayload Unmarshal item ≠ none → item.Src ≠ none) :
    (processItem tie Sum256 DecodeMessage Unmarshal PublicKeyToPeerID item).2 = Outcome.completed ∧
    packetsOf (processItem tie Sum256 DecodeMessage Unmarshal PublicKeyToPeerID item).1 =
      (packetFor Unmarshal PublicKeyToPeerID item).toList ∧
    messagesOf (processItem tie Sum256 DecodeMessage Unmarshal PublicKeyToPeerID item).1 =
      messagesFor tie Sum256 DecodeMessage Unmarshal item := by
  cases hu : Unmarshal item.Payload with
  | error e => simp [processItem, handlePayload, packetFor, messagesFor, hu, packetsOf, messagesOf]
  | ok payload =>
    have hsrc : item.Src ≠ none := h (by simp [handlePayload, hu])
    obtain ⟨src, hs⟩ := Option.ne_none_iff_exists.mp hsrc
    have hm := messagesOf_messages (fun m => { m with SigPubKey := some src })
      (decodeMessages tie Sum256 DecodeMessage payload)
    have hp := packetsOf_messages (fun m => { m with SigPubKey := some src })
      (decodeMessages tie Sum256 DecodeMessage payload)
    simp only [processItem, handlePayload, packetFor, messagesFor, hu, ← hs, packetsOf,
      messagesOf, hm, hp, Option.toList, and_self]

/-- For every batch of envelopes of one polling tick in which each
envelope whose payload deserializes carries an origin key, the loop runs
through; the packets it sends are, in envelope order, one per envelope whose
payload deserializes, with group from the topic, sender from the origin and
the deserialized payload; the messages it sends are, in envelope order, the
decoded messages of those payloads; an envelope whose payload does not
deserialize adds nothing; and every message sent has the origin of an
envelope of the batch as `SigPubKey`. -/
theorem processReceived_emits (tie : List Message → List Message)
    (Sum256 : List Byte → Digest)
    (DecodeMessage : List Byte → Except String Message)
    (Unmarshal : List Byte → Except String Payload)
    (PublicKeyToPeerID : PublicKey → PeerID) (received : List ReceivedMessage)
    (h : ∀ item ∈ received, handlePayload Unmarshal item ≠ none → item.Src ≠ none) :
    (processReceived tie Sum256 DecodeMessage Unmarshal PublicKeyToPeerID received).2 =
      Outcome.completed ∧
    packetsOf (processReceived tie Sum256 DecodeMessage Unmarshal PublicKeyToPeerID received).1 =
      received.filterMap (packetFor Unmarshal PublicKeyToPeerID) ∧
    messagesOf (processReceived tie Sum256 DecodeMessage Unmarshal PublicKeyToPeerID received).1 =
      received.flatMap (messagesFor tie Sum256 DecodeMessage Unmarshal) ∧
    (∀ m ∈ messagesOf
        (processReceived tie Sum256 DecodeMessage Unmarshal PublicKeyToPeerID received).1,
      ∃ item ∈ received, m.SigPubKey = item.Src) := by
  have main : (processReceived tie Sum256 DecodeMessage Unmarshal PublicKeyToPeerID received).2 =
      Outcome.completed ∧
    packetsOf (processReceived tie Sum256 DecodeMessage Unmarshal PublicKeyToPeerID received).1 =
      received.filterMap (packetFor Unmarshal PublicKeyToPeerID) ∧
    messagesOf (processReceived tie Sum256 DecodeMessage Unmarshal PublicKeyToPeerID received).1 =
      received.flatMap (messagesFor tie Sum256 DecodeMessage Unmarshal) := by
    induction received with
    | nil => simp [processReceived, packetsOf, messagesOf]
    | cons item rest ih =>
      obtain ⟨i1, i2, i3⟩ := ih (fun x hx => h x (List.mem_cons_of_mem item hx))
      obtain ⟨h1, h2, h3⟩ := processItem_signed tie Sum256 DecodeMessage Unmarshal
        PublicKeyToPeerID item (h item (List.mem_cons_self item rest))
      rcases hp : processItem tie Sum256 DecodeMessage Unmarshal PublicKeyToPeerID item with
        ⟨sent, outcome⟩
      rw [hp] at h1 h2 h3
      simp only at h1 h2 h3
      subst h1
      simp only [processReceived, hp, packetsOf_append, messagesOf_append, i1, i2, i3, h2, h3,
        List.flatMap_cons, List.filterMap_cons, true_and]
      cases packetFor Unmarshal PublicKeyToPeerID item <;> simp
  refine ⟨main.1, main.2.1, main.2.2, ?_⟩
  intro m hm
  rw [main.2.2, List.mem_flatMap] at hm
  obtain ⟨item, hitem, hmem⟩ := hm
  refine ⟨item, hitem, ?_⟩
  unfold messagesFor at hmem
  split at hmem
  · simp at hmem
  · obtain ⟨m0, _, rfl⟩ := List.mem_map.mp hmem
    rfl

/-- The signed case at the example batch. -/
theorem processReceived_emits_witness :
    (∀ item ∈ exampleBatch, handlePayload bytewiseUnmarshal item ≠ none → item.Src ≠ none) ∧
    ((processReceived stableTie zeroSum256 firstByteDecode bytewiseUnmarshal xyPeerID exampleBatch).2 =
      Outcome.completed ∧
    packetsOf (processReceived stableTie zeroSum256 firstByteDecode bytewiseUnmarshal xyPeerID
      exampleBatch).1 = exampleBatch.filterMap (packetFor bytewiseUnmarshal xyPeerID) ∧
    messagesOf (processReceived stableTie zeroSum256 firstByteDecode bytewiseUnmarshal xyPeerID
      exampleBatch).1 =
      exampleBatch.flatMap (messagesFor stableTie zeroSum256 firstByteDecode bytewiseUnmarshal) ∧
    (∀ m ∈ messagesOf
        (processReceived stableTie zeroSum256 firstByteDecode bytewiseUnmarshal xyPeerID exampleBatch).1,
      ∃ item ∈ exampleBatch, m.SigPubKey = item.Src)) :=
  ⟨by decide,
   processReceived_emits stableTie zeroSum256 firstByteDecode bytewiseUnmarshal xyPeerID exampleBatch
    (by decide)⟩

/-- The example batch, run: one packet, for the second envelope, and its three
messages in clock order, each with the key of that envelope. -/
theorem processReceived_example :
    (packetsOf (processReceived stableTie zeroSum256 firstByteDecode bytewiseUnmarshal xyPeerID
      exampleBatch).1).map (fun p => (p.Group.val.take 5, p.Sender)) =
      [([1, 2, 3, 4, 0], [7, 9])] ∧
    (messagesOf (processReceived stableTie zeroSum256 firstByteDecode bytewiseUnmarshal xyPeerID
      exampleBatch).1).map (fun m => (m.Clock, m.SigPubKey)) =
      [(5, some { X := 7, Y := 9 }), (10, some { X := 7, Y := 9 }),
       (20, some { X := 7, Y := 9 })] := by
  decide

theorem processReceived_skips_undecodable (tie : List Message → List Message)
    (Sum256 : List Byte → Digest)
    (DecodeMessage : List Byte → Except String Message)
    (Unmarshal : List Byte → Except String Payload)
    (PublicKeyToPeerID : PublicKey → PeerID) (item : ReceivedMessage)
    (rest : List ReceivedMessage) (h : handlePayload Unmarshal item = none) :
    processReceived tie Sum256 DecodeMessage Unmarshal PublicKeyToPeerID (item :: rest) =
      processReceived tie Sum256 DecodeMessage Unmarshal PublicKeyToPeerID rest := by
  simp [processReceived, processItem, h]

/-- C10, what the code does. An envelope without a signature whose payload
deserializes stops the loop at `*item.Src`: nothing is sent for it or for any
envelope after it, whatever follows in the batch.  On the batch of the
unsigned and a signed envelope, both payloads deserialize, so the claim calls
for two packets, and no packet is sent. -/
theorem processReceived_unsigned_stops (tie : List Message → List Message)
    (Sum256 : List Byte → Digest) (DecodeMessage : List Byte → Except String Message)
    (PublicKeyToPeerID : PublicKey → PeerID) (rest : List ReceivedMessage) :
    processReceived tie Sum256 DecodeMessage bytewiseUnmarshal PublicKeyToPeerID
      (unsignedEnvelope :: rest) = ([], Outcome.nilDereference) ∧
    (unsignedBatch.filter
      (fun item => (handlePayload bytewiseUnmarshal item).isSome)).length = 2 ∧
    packetsOf (processReceived tie Sum256 DecodeMessage bytewiseUnmarshal PublicKeyToPeerID
      unsignedBatch).1 = [] := by
  have h : ∀ l : List ReceivedMessage,
      processReceived tie Sum256 DecodeMessage bytewiseUnmarshal PublicKeyToPeerID
        (unsignedEnvelope :: l) = ([], Outcome.nilDereference) := by
    intro l
    simp [processReceived, processItem, handlePayload, bytewiseUnmarshal, unsignedEnvelope]
  refine ⟨h rest, by decide, ?_⟩
  rw [unsignedBatch, h]
  rfl

theorem processReceived_unsigned (tie : List Message → List Message)
    (Sum256 : List Byte → Digest)
    (DecodeMessage : List Byte → Except String Message)
    (Unmarshal : List Byte → Except String Payload)
    (PublicKeyToPeerID : PublicKey → PeerID) (item : ReceivedMessage)
    (rest : List ReceivedMessage) (h1 : handlePayload Unmarshal item ≠ none)
    (h2 : item.Src = none) :
    processReceived tie Sum256 DecodeMessage Unmarshal PublicKeyToPeerID (item :: rest) =
      ([], Outcome.nilDereference) := by
  obtain ⟨payload, hp⟩ := Option.ne_none_iff_exists.mp h1
  simp [processReceived, processItem, ← hp, h2]

end StatusConsole
